import Mathlib

/-!
# Verification of the js-rpc protocol engine (src/src/lib.js)

A shallow embedding, in Lean 4, of the parts of `src/src/lib.js` that the
frozen claims are about:

* the frame codec (`buildBufferData` / `parseBufferData` / `createDecodeStream`),
  modelled on the `key = null` (no-cipher) path, where `encrypt` and `decrypt`
  are the identity on bytes;
* the message codec (`buildRpcData` / `parseRpcData`), over an untyped value
  model of the JavaScript data that crosses the serializer; the external
  serializer (`msgpackr`, spec §6) is modelled by its contract, as the identity
  on the self-describing value;
* the client engine (`createRpcClientHelper`): the inbound-message handler of
  the `pipeTo` writable, the pending-call map (a JavaScript `Map`), `apiInvoke`
  and the pipeline-wide `reject`;
* the key/iv derivation (`buildKeyIv`) and `encrypt`/`decrypt`, symbolically
  (WebCrypto digests and derivations are uninterpreted constructors);
* the reconnect backoff loop (`timeWaitRetryLoop`), as the pure sequence of
  sleep durations it performs.

Bytes are modelled as `List Nat`; JavaScript `Uint8Array` cells hold values
below 256, and the header writer only produces such values, but the frame
codec treats payload bytes opaquely, so payload bytes are unconstrained here.
-/

namespace JsRpc

/-- A byte buffer (`Uint8Array` contents). -/
abbrev Bytes := List Nat

/-- `const HEADER_CHECK = 0xb1f7705f` (lib.js:65). -/
def HEADER_CHECK : Nat := 0xb1f7705f

/-- `readUInt32LE(buffer, offset)` (lib.js:140-146): little-endian unsigned
32-bit read; each cell is masked with `& 0xff`.  The JS function throws a
`RangeError` out of bounds; every call site in `parseBufferData` is in bounds,
and out-of-bounds cells are read as 0 here. -/
def readUInt32LE (buffer : Bytes) (offset : Nat) : Nat :=
  (buffer.getD offset 0) % 256
  + ((buffer.getD (offset + 1) 0) % 256) * 256
  + ((buffer.getD (offset + 2) 0) % 256) * 65536
  + ((buffer.getD (offset + 3) 0) % 256) * 16777216

/-- `writeUInt32LE(buffer, value, offset)` (lib.js:153-159), as the four bytes
it stores: JS `value & 0xff`, `(value >> 8) & 0xff`, ... wrap `value` to 32
bits first (ToInt32), hence the explicit `% 2^32`. -/
def writeUInt32LE (value : Nat) : Bytes :=
  [value % 4294967296 % 256,
   value % 4294967296 / 256 % 256,
   value % 4294967296 / 65536 % 256,
   value % 4294967296 / 16777216 % 256]

/-- One framed record of `buildBufferData` (lib.js:73-85), no-cipher path:
`len(4, LE) ++ magic(4, LE) ++ payload`. -/
def frameRecord (data : Bytes) : Bytes :=
  writeUInt32LE data.length ++ writeUInt32LE HEADER_CHECK ++ data

/-- `buildBufferData(queue, key, iv)` (lib.js:73-85) with `key = null`
(`encrypt` is then the identity, lib.js:302-309): the concatenation of the
frames of all queued records. -/
def buildBufferData (queue : List Bytes) : Bytes :=
  (queue.map frameRecord).flatten

/-- The loop body of `parseBufferData` (lib.js:93-120), with `key = null`
(`decrypt` is the identity).  The `while` loop is phrased as recursion on the
unconsumed buffer; `fuel` is spent once per iteration, and since every
iteration consumes at least 8 bytes, `fuel = buffer.length + 1` never runs
out.  Check order follows the source: the `offset + 8 > buffer.length` stop,
the `offset + bufferLength > buffer.length` stop (keeping the carry), and only
then the `HEADER_CHECK` comparison (discarding the carry on mismatch). -/
def parseBufferGo : Nat → Bytes → List Bytes × Bytes
  | 0, buffer => ([], buffer)
  | fuel + 1, buffer =>
    if buffer.length = 0 then ([], [])
    else if buffer.length < 8 then ([], buffer)
    else
      let bufferLength := readUInt32LE buffer 0
      let headerCheck := readUInt32LE buffer 4
      if buffer.length < 8 + bufferLength then ([], buffer)
      else if headerCheck ≠ HEADER_CHECK then ([], [])
      else
        let data := (buffer.drop 8).take bufferLength
        let rest := parseBufferGo fuel (buffer.drop (8 + bufferLength))
        (data :: rest.1, rest.2)

/-- `parseBufferData(buffer, key, iv)` (lib.js:93-120), `key = null`: the list
of complete decoded records and the unconsumed remainder. -/
def parseBufferData (buffer : Bytes) : List Bytes × Bytes :=
  parseBufferGo (buffer.length + 1) buffer

/-- One `transform` step of `createDecodeStream` (lib.js:47-63): parse the
carry concatenated with the chunk, emit the records, keep the remainder. -/
def decodeStep (st : List Bytes × Bytes) (chunk : Bytes) : List Bytes × Bytes :=
  let parsed := parseBufferData (st.2 ++ chunk)
  (st.1 ++ parsed.1, parsed.2)

/-- Running `createDecodeStream`'s transform over a whole chunk sequence,
starting from `last = new Uint8Array(0)`: all emitted records plus the final
carry. -/
def decodeStream (chunks : List Bytes) : List Bytes × Bytes :=
  chunks.foldl decodeStep ([], [])

/-! ## Wire constants (lib.js:351-357) -/

def RPC_TYPE_CALL : Nat := 0xdf68f4cb
def RPC_TYPE_RETURN : Nat := 0x68b17581
def RPC_TYPE_CALLBACK : Nat := 0x8d65e5cc
def RPC_TYPE_ERROR : Nat := 0xa07c0f84
def RPC_DATA_ARG_TYPE_OTHERS : Nat := 0xa7f68c
def RPC_DATA_ARG_TYPE_FUNCTION : Nat := 0x7ff45f

/-! ## An untyped JavaScript value model

The values that cross the message codec.  The external serializer (`msgpackr`,
spec §6: a self-describing format that round-trips these values) is modelled
by its contract as the identity, so `buildRpcData` produces the value it would
pack and `parseRpcData` consumes it. -/

/-- A JavaScript value, as far as the message codec inspects it. -/
inductive JVal where
  | undefined : JVal
  | jnull : JVal
  | num : Nat → JVal
  | str : String → JVal
  | bool : Bool → JVal
  | arr : List JVal → JVal
  | obj : List (String × JVal) → JVal
deriving Repr

/-- JavaScript property read `v[k]`: `none` models the thrown `TypeError` when
the base is `null`/`undefined`; a missing property, or a property on a
primitive, reads as `undefined`. -/
def jsGet (v : JVal) (k : String) : Option JVal :=
  match v with
  | .obj fs => some ((((fs.find? (fun f => f.1 == k))).map (fun f => f.2)).getD .undefined)
  | .undefined => none
  | .jnull => none
  | _ => some .undefined

/-- JavaScript loose equality of a value against a number literal, as used in
`type == RPC_TYPE_CALL` etc.; only a number compares equal here. -/
def JVal.eqNum : JVal → Nat → Bool
  | .num n, m => n == m
  | _, _ => false

/-- JavaScript truthiness, as used by `if (stack)` in the `RPCError`
constructor (lib.js:553-558). -/
def jsTruthy : JVal → Bool
  | .undefined => false
  | .jnull => false
  | .num n => n != 0
  | .str s => !s.isEmpty
  | .bool b => b
  | .arr _ => true
  | .obj _ => true

/-- JavaScript `Array.prototype.map` with a callback that can throw:
structural recursion over the elements, short-circuiting on the first thrown
error (the monad is `Option` for `TypeError`-as-`none`, or `Except` carrying
the error). -/
def mapMThrow {m : Type → Type} [Monad m] (f : JVal → m JVal) : List JVal → m (List JVal)
  | [] => pure []
  | x :: xs => do
    let y ← f x
    let ys ← mapMThrow f xs
    pure (y :: ys)

/-! ## Message codec (lib.js:366-385) -/

/-- `{ id, type, data }` as handed to `buildRpcData` (the `RPC_DATA` box). -/
structure RPC_DATA where
  id : JVal
  type : JVal
  data : JVal
deriving Repr

/-- The element mapping `({ type, data }) => [type, data]` of `buildRpcData`
(lib.js:370): read the two properties (throwing on `null`/`undefined`) and
build the pair. -/
def argItemToPair (e : JVal) : Option JVal :=
  (jsGet e "type").bind fun t => (jsGet e "data").bind fun d => some (JVal.arr [t, d])

/-- The `data.map(({ type, data }) => [type, data])` step of `buildRpcData`
(lib.js:370): `none` models the `TypeError` raised when `data` is not an array
(`data.map` is not a function) or an element is `null`/`undefined`
(destructuring throws). -/
def mapArgItemsToPairs (data : JVal) : Option JVal :=
  match data with
  | .arr items => (mapMThrow argItemToPair items).map JVal.arr
  | _ => none

/-- `buildRpcData(box)` (lib.js:366-373).  The serializer is the identity on
the self-describing value, so the result is the packed triple
`[box.id, type, data]` itself. -/
def buildRpcData (box : RPC_DATA) : Option JVal :=
  let type := box.type
  let data : Option JVal :=
    if type.eqNum RPC_TYPE_CALL || type.eqNum RPC_TYPE_CALLBACK then
      mapArgItemsToPairs box.data
    else some box.data
  data.map (fun d => JVal.arr [box.id, type, d])

/-- The element mapping `([type, data]) => ({ type, data })` of `parseRpcData`
(lib.js:381): destructure the element as an array pair (missing positions read
as `undefined`; a non-array element makes the destructuring throw, modelled as
`none`) and rebuild the `{type, data}` object. -/
def pairToArgItem (e : JVal) : Option JVal :=
  match e with
  | .arr p => some (JVal.obj [("type", p.getD 0 .undefined), ("data", p.getD 1 .undefined)])
  | _ => none

/-- The `data.map(([type, data]) => ({ type, data }))` step of `parseRpcData`
(lib.js:381). -/
def mapPairsToArgItems (data : JVal) : Option JVal :=
  match data with
  | .arr items => (mapMThrow pairToArgItem items).map JVal.arr
  | _ => none

/-- `parseRpcData(buffer)` (lib.js:378-385): unpack `[id, type, data]`
(destructuring a non-array throws, modelled as `none`) and remap CALL/CALLBACK
argument pairs back to `{type, data}` objects. -/
def parseRpcData (buffer : JVal) : Option RPC_DATA :=
  match buffer with
  | .arr l =>
    let id := l.getD 0 .undefined
    let type := l.getD 1 .undefined
    let data := l.getD 2 .undefined
    if type.eqNum RPC_TYPE_CALL || type.eqNum RPC_TYPE_CALLBACK then
      (mapPairsToArgItems data).map (fun d => ⟨id, type, d⟩)
    else some ⟨id, type, data⟩
  | _ => none

/-- A well-formed argument item: exactly the object shape
`{ type: <value>, data: <value> }` that `buildRpcItemData` produces. -/
def isArgItem : JVal → Bool
  | .obj [("type", _), ("data", _)] => true
  | _ => false

/-! ## Client engine state (lib.js:547-660) -/

/-- `CALLBACK_ITEM` (types.ts): an entry of `callbackFunctionMap`.  A result
waiter carries a `promise` (the resolvers, named here by the entry id); a
callback slot carries a `callback` (the registered function, named by an
opaque token). -/
structure CALLBACK_ITEM where
  id : Nat
  type : Nat
  promise : Option Nat := none
  callback : Option Nat := none
deriving Repr, DecidableEq

/-- The pending-call table: a JavaScript `Map` in insertion order. -/
abbrev PendingMap := List (Nat × CALLBACK_ITEM)

/-- `Map.get` (also serving `Map.has` via `isSome`). -/
def mapGet : PendingMap → Nat → Option CALLBACK_ITEM
  | [], _ => none
  | (k', v') :: rest, k => if k' = k then some v' else mapGet rest k

/-- `Map.set`: overwrite in place if the key exists, else append. -/
def mapSet : PendingMap → Nat → CALLBACK_ITEM → PendingMap
  | [], k, v => [(k, v)]
  | (k', v') :: rest, k, v =>
    if k' = k then (k, v) :: rest else (k', v') :: mapSet rest k v

/-- `Map.delete`. -/
def mapDelete : PendingMap → Nat → PendingMap
  | [], _ => []
  | (k', v') :: rest, k =>
    if k' = k then mapDelete rest k else (k', v') :: mapDelete rest k

/-- The stack of a constructed `RPCError` (lib.js:547-559): `if (stack)` keeps
the remote stack, otherwise the local `Error` stack remains. -/
inductive StackV where
  | localStack : StackV
  | remote : JVal → StackV
deriving Repr

/-- An `RPCError` instance: `message` and the stack it ends up with. -/
structure RPCErrorV where
  message : JVal
  stack : StackV
deriving Repr

/-- `new RPCError(message, stack)` (lib.js:553-558). -/
def mkRPCError (message stack : JVal) : RPCErrorV :=
  ⟨message, if jsTruthy stack then .remote stack else .localStack⟩

/-- A JavaScript error value as observed by the client engine. -/
inductive JsError where
  | rpc : RPCErrorV → JsError
  | typeError : String → JsError
deriving Repr

/-- Observable effects of the inbound handler on waiters and callbacks. -/
inductive REvent where
  | resolve : Nat → JVal → REvent
  | reject : Nat → JsError → REvent
  | invokeCallback : Nat → List JVal → REvent
deriving Repr

/-- An inbound message after `parseRpcData`, keyed by its numeric id as the
engine uses it. -/
structure RpcMsg where
  id : Nat
  type : Nat
  data : JVal
deriving Repr

/-- Property read raising `TypeError` on `null`/`undefined` base, in the
`Except` monad of the handler body. -/
def jsGetE (v : JVal) (k : String) : Except JsError JVal :=
  match jsGet v k with
  | some r => .ok r
  | none => .error (.typeError ("cannot read property " ++ k))

/-- The `if (data.type == RPC_TYPE_ERROR)` statement of the try body
(lib.js:582-585): calling `reject` on an absent `promise` throws (the member
access happens before the `RPCError` arguments are evaluated); otherwise the
waiter is rejected with `new RPCError(error.message, error.stack)`.  The
thrown-error case carries the table as it stands at the throw. -/
def handleErrorBranch (msg : RpcMsg) (o : CALLBACK_ITEM)
    (st : PendingMap × List REvent) :
    Except (JsError × PendingMap) (PendingMap × List REvent) :=
  if msg.type == RPC_TYPE_ERROR then
    match o.promise with
    | none => .error (.typeError "reject is not a function", st.1)
    | some _ =>
      match jsGetE msg.data "message", jsGetE msg.data "stack" with
      | .ok emsg, .ok estk =>
        .ok (st.1, st.2 ++ [REvent.reject msg.id (.rpc (mkRPCError emsg estk))])
      | .error e, _ => .error (e, st.1)
      | _, .error e => .error (e, st.1)
  else .ok st

/-- The `if (data.type == RPC_TYPE_RETURN)` statement (lib.js:586-589): the
entry is deleted first, then `resolve` is called — so when `promise` is
absent, the deletion has already happened when the member access throws. -/
def handleReturnBranch (msg : RpcMsg) (o : CALLBACK_ITEM)
    (st : PendingMap × List REvent) :
    Except (JsError × PendingMap) (PendingMap × List REvent) :=
  if msg.type == RPC_TYPE_RETURN then
    let m' := mapDelete st.1 msg.id
    match o.promise with
    | none => .error (.typeError "resolve is not a function", m')
    | some _ => .ok (m', st.2 ++ [REvent.resolve msg.id msg.data])
  else .ok st

/-- The `if (data.type == RPC_TYPE_CALLBACK)` statement (lib.js:590-593):
`let args = items.map((o) => o.data)` runs first (throwing if `items` is not
an array or an element read throws), then `o.callback.apply(o, args)` —
throwing when `callback` is absent. -/
def handleCallbackBranch (msg : RpcMsg) (o : CALLBACK_ITEM)
    (st : PendingMap × List REvent) :
    Except (JsError × PendingMap) (PendingMap × List REvent) :=
  if msg.type == RPC_TYPE_CALLBACK then
    match msg.data with
    | .arr items =>
      match mapMThrow (fun e => jsGetE e "data") items with
      | .ok args =>
        match o.callback with
        | none => .error (.typeError "apply is not a function", st.1)
        | some fn => .ok (st.1, st.2 ++ [REvent.invokeCallback fn args])
      | .error e => .error (e, st.1)
    | _ => .error (.typeError "items.map is not a function", st.1)
  else .ok st

/-- The body of the `try` block of the client inbound handler
(lib.js:577-594), after `parseRpcData`: when the id is registered, the three
type-tests run in sequence on the shared table and a thrown `TypeError`
short-circuits, carrying the table as mutated so far. -/
def clientHandleInner (msg : RpcMsg) (m : PendingMap) :
    Except (JsError × PendingMap) (PendingMap × List REvent) :=
  match mapGet m msg.id with
  | none => .ok (m, [])
  | some o =>
    (((handleErrorBranch msg o (m, [])).bind
      (handleReturnBranch msg o)).bind
      (handleCallbackBranch msg o))

/-- The `catch` branch (lib.js:595-601): reject the promise of every entry
still in the table (`o.promise?.reject(error)`, so entries without a promise
are skipped), in table order. -/
def rejectAllEvents (m : PendingMap) (e : JsError) : List REvent :=
  m.filterMap (fun kv => kv.2.promise.map (fun _ => REvent.reject kv.1 e))

/-- The whole inbound `write` handler of `createRpcClientHelper`
(lib.js:575-603), after `parseRpcData`: the `try` body, and on a thrown error
the `catch` branch rejects every pending promise and clears the table. -/
def clientHandleMessage (msg : RpcMsg) (m : PendingMap) : PendingMap × List REvent :=
  match clientHandleInner msg m with
  | .ok r => r
  | .error (e, mAt) => ([], rejectAllEvents mAt e)

/-- `reject(error)` of the client helper (lib.js:650-655): reject every
pending promise and clear the table. -/
def clientReject (e : JsError) (m : PendingMap) : List REvent × PendingMap :=
  (rejectAllEvents m e, [])

/-! ## `apiInvoke` (lib.js:609-645) -/

/-- Client engine state: the id counter and the pending-call table. -/
structure ClientState where
  uniqueKeyID : Nat
  callbackFunctionMap : PendingMap
deriving Repr

/-- An argument passed to `apiInvoke`: a plain value, or a callable with its
`constructor?.name` (`"AsyncFunction"` exactly when the callable is async; the
empty string models an absent constructor name). -/
inductive JsArg where
  | value : JVal → JsArg
  | func : Bool → String → JsArg
deriving Repr

/-- Whether an argument is a callable that is not async (`arg instanceof
Function` and `arg.constructor?.name !== 'AsyncFunction'`). -/
def isSyncCallable : JsArg → Bool
  | .func isAsync _ => !isAsync
  | .value _ => false

/-- The local usage error text thrown for a non-async callable
(lib.js:622-625). -/
def asyncCallbackErrorMessage (receivedType : String) : String :=
  "Expected an AsyncFunction as the callback, but received a " ++ receivedType ++
    ". Ensure the callback is declared with \"async function\" or an arrow function using \"async\"."

/-- An element of the `argArray` that `apiInvoke` builds: a plain value, or
the `() => key` thunk standing for a registered callback. -/
inductive InvokeArgEntry where
  | plain : JVal → InvokeArgEntry
  | thunk : Nat → InvokeArgEntry
deriving Repr

/-- A wire argument item `{ type, data }` produced by `buildRpcItemData`. -/
structure RPC_DATA_ARG_ITEM where
  type : Nat
  data : JVal
deriving Repr

/-- `buildRpcItemData(items)` (lib.js:390-407) on the `argArray` that
`apiInvoke` builds: a function item is tagged `FUNCTION` and carries `item()`
(the registered key); anything else is tagged `OTHERS` and carried as-is. -/
def buildRpcItemData (items : List InvokeArgEntry) : List RPC_DATA_ARG_ITEM :=
  items.map (fun item =>
    match item with
    | .thunk k => ⟨RPC_DATA_ARG_TYPE_FUNCTION, .num k⟩
    | .plain v => ⟨RPC_DATA_ARG_TYPE_OTHERS, v⟩)

/-- The `for (const arg of args)` loop of `apiInvoke` (lib.js:617-634):
registers a callback slot for each async callable, collects its key, and
throws (before the `try` block, so nothing is cleaned up) on the first
non-async callable.  The `error` case carries the thrown message, the state at
the throw, and the keys collected so far. -/
def regArgsLoop : List JsArg → ClientState → List Nat → List InvokeArgEntry →
    Except (String × ClientState × List Nat) (ClientState × List Nat × List InvokeArgEntry)
  | [], st, keys, acc => .ok (st, keys, acc)
  | .value v :: rest, st, keys, acc => regArgsLoop rest st keys (acc ++ [.plain v])
  | .func isAsync ctorName :: rest, st, keys, acc =>
    if isAsync then
      let key := st.uniqueKeyID
      let st' : ClientState :=
        ⟨key + 1,
         mapSet st.callbackFunctionMap key ⟨key, RPC_TYPE_CALLBACK, none, some key⟩⟩
      regArgsLoop rest st' (keys ++ [key]) (acc ++ [.thunk key])
    else
      let receivedType := if ctorName.isEmpty then "regular function" else ctorName
      .error (asyncCallbackErrorMessage receivedType, st, keys)

/-- How the awaited part of `apiInvoke` settles, decided by the carrier and
the inbound pipeline: `writer.write` rejects, or the waiter's promise is
resolved (a RETURN arrived) or rejected (a remote ERROR or a pipeline-wide
`reject`). -/
inductive Settlement where
  | writeThrows : String → Settlement
  | resolveWith : JVal → Settlement
  | rejectWith : String → Settlement
deriving Repr

/-- What one `apiInvoke` run produced. -/
inductive InvokeOutcome where
  | usageError : String → InvokeOutcome
  | writeError : String → InvokeOutcome
  | returned : JVal → InvokeOutcome
  | failed : String → InvokeOutcome
deriving Repr

/-- The observable result of one `apiInvoke` run: its outcome, the state it
leaves, the CALL messages written (id with wire items), the callback keys it
allocated, and the call id. -/
structure InvokeRun where
  outcome : InvokeOutcome
  state : ClientState
  sent : List (Nat × List RPC_DATA_ARG_ITEM)
  keys : List Nat
  callId : Nat
deriving Repr

/-- `for (const key of keys) callbackFunctionMap.delete(key)` (lib.js:640-644). -/
def deleteKeys (m : PendingMap) (keys : List Nat) : PendingMap :=
  keys.foldl mapDelete m

/-- `apiInvoke(fnName, args)` (lib.js:609-645): allocate the call id and
register the waiter; run the argument loop (which may throw before the `try`
block, leaving the waiter and the already-registered callback slots in the
table and sending nothing); otherwise write the CALL message and await the
waiter, and — whatever way that settles — delete every collected key in the
`finally` block. -/
def apiInvoke (fnName : String) (args : List JsArg) (settle : Settlement)
    (st : ClientState) : InvokeRun :=
  let id := st.uniqueKeyID
  let st1 : ClientState :=
    ⟨id + 1, mapSet st.callbackFunctionMap id ⟨id, RPC_TYPE_RETURN, some id, none⟩⟩
  match regArgsLoop args st1 [] [.plain (.str fnName)] with
  | .error (msg, stErr, keysErr) => ⟨.usageError msg, stErr, [], keysErr, id⟩
  | .ok (st2, keys, argArray) =>
    let box := (id, buildRpcItemData argArray)
    let finalSt : ClientState := ⟨st2.uniqueKeyID, deleteKeys st2.callbackFunctionMap keys⟩
    match settle with
    | .writeThrows e => ⟨.writeError e, finalSt, [box], keys, id⟩
    | .resolveWith v => ⟨.returned v, finalSt, [box], keys, id⟩
    | .rejectWith e => ⟨.failed e, finalSt, [box], keys, id⟩

/-! ## Cipher-state derivation (lib.js:263-325), symbolically

WebCrypto calls are uninterpreted: a derived byte string is represented by the
call that produced it, so what the code passes where is visible, while
hashes themselves stay abstract. -/

/-- A byte string produced by `crypto.subtle.digest` / `deriveBits`. -/
inductive DerivedBits where
  | sha512 : String → DerivedBits
  | pbkdf2 : String → DerivedBits → Nat → String → Nat → DerivedBits
deriving Repr, DecidableEq

/-- The length in bytes of a derived byte string: SHA-512 digests are 64
bytes; `deriveBits(params, material, bits)` yields `bits / 8` bytes. -/
def DerivedBits.byteLength : DerivedBits → Nat
  | .sha512 _ => 64
  | .pbkdf2 _ _ _ _ bits => bits / 8

/-- A `CryptoKey` from `crypto.subtle.deriveKey`, with the PBKDF2 parameters
and the derived algorithm it was created with. -/
structure DerivedKey where
  password : String
  salt : DerivedBits
  iterations : Nat
  hash : String
  algName : String
  algLength : Nat
deriving Repr, DecidableEq

/-- `buildKeyIv(password, iterations)` (lib.js:263-293): `[null, null]` for a
falsy (empty) password; otherwise the AES-GCM-256 key derived by PBKDF2 over
the password with salt `SHA-512(password)` and hash SHA-256, and — as the iv —
the full 256-bit `deriveBits` output (`new Uint8Array(iv)`, untruncated). -/
def buildKeyIv (password : String) (iterations : Nat) :
    Option DerivedKey × Option DerivedBits :=
  if password.isEmpty then (none, none)
  else
    (some ⟨password, .sha512 password, iterations, "SHA-256", "AES-GCM", 256⟩,
     some (.pbkdf2 password (.sha512 password) iterations "SHA-256" 256))

/-- What `encrypt` hands to the wire: the plaintext untouched (`key` null), or
an AES-GCM encryption recording exactly the key and iv passed to
`crypto.subtle.encrypt`; `invalidIv` models the rejection when `iv` is absent
while a key is present (no call site does this). -/
inductive CipherMsg where
  | plain : Bytes → CipherMsg
  | aesGcmSealed : DerivedKey → DerivedBits → Bytes → CipherMsg
  | invalidIv : CipherMsg
deriving Repr, DecidableEq

/-- `encrypt(data, key, iv)` (lib.js:302-309). -/
def encrypt (data : Bytes) (key : Option DerivedKey) (iv : Option DerivedBits) :
    CipherMsg :=
  match key with
  | none => .plain data
  | some k =>
    match iv with
    | some i => .aesGcmSealed k i data
    | none => .invalidIv

/-- The result of `decrypt`: the ciphertext untouched (`key` null), or a
symbolic AES-GCM decryption recording the key and iv passed to
`crypto.subtle.decrypt`. -/
inductive PlainMsg where
  | plain : Bytes → PlainMsg
  | aesGcmOpened : DerivedKey → DerivedBits → Bytes → PlainMsg
  | invalidIv : PlainMsg
deriving Repr, DecidableEq

/-- `decrypt(data, key, iv)` (lib.js:317-325). -/
def decrypt (data : Bytes) (key : Option DerivedKey) (iv : Option DerivedBits) :
    PlainMsg :=
  match key with
  | none => .plain data
  | some k =>
    match iv with
    | some i => .aesGcmOpened k i data
    | none => .invalidIv

/-- The iv that an encryption passed to `crypto.subtle.encrypt`, if any. -/
def CipherMsg.ivUsed : CipherMsg → Option DerivedBits
  | .aesGcmSealed _ iv _ => some iv
  | _ => none

/-! ## Reconnect backoff (`timeWaitRetryLoop`, lib.js:331-349)

Real time is abstracted to, per iteration, whether the `callback()` invocation
took more than 10 000 ms (`performance.now() - time > 10_000`); the abort
signal is abstracted to the number `n` of iterations that run before
`signal.aborted` is observed true. -/

/-- One iteration after `callback()` has run: reset the wait to 300 on a long
invocation, sleep it, then double it, capping at 60 000.  Returns the duration
slept and the next `waitTime`. -/
def timeWaitStep (waitTime : Nat) (longRun : Bool) : Nat × Nat :=
  let w := if longRun then 300 else waitTime
  let w2 := w * 2
  (w, if w2 > 60000 then 60000 else w2)

/-- The sleep durations of the loop from a given `waitTime`, when the signal
stays live for `iters` more iterations; `longs i` tells whether the i-th
remaining callback invocation took more than 10 s. -/
def timeWaitRetryWaits : Nat → (Nat → Bool) → Nat → List Nat
  | 0, _, _ => []
  | iters + 1, longs, waitTime =>
    let s := timeWaitStep waitTime (longs 0)
    s.1 :: timeWaitRetryWaits iters (fun i => longs (i + 1)) s.2

/-- `timeWaitRetryLoop(signal, callback)` (lib.js:331-349) as the sequence of
waits it sleeps: `waitTime` starts at 300 and the loop stops once the signal
is aborted, i.e. after `n` iterations. -/
def timeWaitRetryLoop (n : Nat) (longs : Nat → Bool) : List Nat :=
  timeWaitRetryWaits n longs 300

/-! # Theorems -/

/-! ## Pending-map helper lemmas -/

theorem mapGet_mapSet_self (m : PendingMap) (k : Nat) (v : CALLBACK_ITEM) :
    mapGet (mapSet m k v) k = some v := by
  induction m with
  | nil => simp [mapSet, mapGet]
  | cons hd tl ih =>
    obtain ⟨k', v'⟩ := hd
    by_cases h : k' = k <;> simp [mapSet, mapGet, h, ih]

theorem mapGet_mapSet_ne (m : PendingMap) (k j : Nat) (v : CALLBACK_ITEM)
    (h : j ≠ k) : mapGet (mapSet m j v) k = mapGet m k := by
  induction m with
  | nil => simp [mapSet, mapGet, h]
  | cons hd tl ih =>
    obtain ⟨k', v'⟩ := hd
    by_cases hk : k' = j
    · subst hk
      simp [mapSet, mapGet, h]
    · simp [mapSet, mapGet, hk, ih]

theorem mapGet_mapDelete_self (m : PendingMap) (k : Nat) :
    mapGet (mapDelete m k) k = none := by
  induction m with
  | nil => simp [mapDelete, mapGet]
  | cons hd tl ih =>
    obtain ⟨k', v'⟩ := hd
    by_cases h : k' = k <;> simp [mapDelete, mapGet, h, ih]

theorem mapGet_mapDelete_ne (m : PendingMap) (k j : Nat) (h : j ≠ k) :
    mapGet (mapDelete m j) k = mapGet m k := by
  induction m with
  | nil => simp [mapDelete, mapGet]
  | cons hd tl ih =>
    obtain ⟨k', v'⟩ := hd
    by_cases hk : k' = j
    · subst hk
      simp [mapDelete, mapGet, h, Ne.symm h, ih]
    · by_cases hkk : k' = k <;> simp [mapDelete, mapGet, hk, hkk, Ne.symm h, ih]

theorem mapGet_mem (m : PendingMap) (k : Nat) (it : CALLBACK_ITEM)
    (h : mapGet m k = some it) : (k, it) ∈ m := by
  induction m with
  | nil => simp [mapGet] at h
  | cons hd tl ih =>
    obtain ⟨k', v'⟩ := hd
    by_cases hk : k' = k
    · subst hk
      simp [mapGet] at h
      simp [h]
    · simp [mapGet, hk] at h
      exact List.mem_cons_of_mem _ (ih h)

theorem mem_rejectAllEvents (m : PendingMap) (e : JsError) (k : Nat)
    (it : CALLBACK_ITEM) (hmem : (k, it) ∈ m) (hp : it.promise.isSome = true) :
    REvent.reject k e ∈ rejectAllEvents m e := by
  obtain ⟨p, hsome⟩ := Option.isSome_iff_exists.mp hp
  refine List.mem_filterMap.mpr ⟨(k, it), hmem, ?_⟩
  simp [hsome]

theorem mapGet_deleteKeys_of_none (keys : List Nat) :
    ∀ (m : PendingMap) (k : Nat), mapGet m k = none →
      mapGet (deleteKeys m keys) k = none := by
  induction keys with
  | nil => intro m k h; simpa [deleteKeys] using h
  | cons j rest ih =>
    intro m k h
    have hstep : mapGet (mapDelete m j) k = none := by
      by_cases hjk : j = k
      · subst hjk; exact mapGet_mapDelete_self m j
      · rw [mapGet_mapDelete_ne m k j hjk]; exact h
    simpa [deleteKeys] using ih (mapDelete m j) k hstep

theorem mapGet_deleteKeys_mem (keys : List Nat) :
    ∀ (m : PendingMap) (k : Nat), k ∈ keys →
      mapGet (deleteKeys m keys) k = none := by
  induction keys with
  | nil => intro m k h; simp at h
  | cons j rest ih =>
    intro m k h
    rcases List.mem_cons.mp h with h | h
    · subst h
      by_cases hk : k ∈ rest
      · simpa [deleteKeys] using ih (mapDelete m k) k hk
      · have : mapGet (mapDelete m k) k = none := mapGet_mapDelete_self m k
        simpa [deleteKeys] using mapGet_deleteKeys_of_none rest (mapDelete m k) k this
    · simpa [deleteKeys] using ih (mapDelete m j) k h

/-! ## C1: RETURN removes the waiter entry, but ERROR does not -/

/-- C1 (code bug, failing input): with a single result waiter registered under
id 0, an inbound ERROR message for id 0 rejects the waiter with an `RPCError`
carrying the remote `msg.data.message` and `msg.data.stack` — but, unlike the
RETURN branch, the handler never deletes the entry, so the waiter entry is
still in the pending-call table afterwards, contradicting the claim that a
result-waiter entry is removed when an ERROR with its id arrives. -/
theorem clientHandle_error_leaves_waiter_entry :
    clientHandleMessage
        ⟨0, RPC_TYPE_ERROR, .obj [("message", .str "boom"), ("stack", .str "remote-stack")]⟩
        [(0, ⟨0, RPC_TYPE_RETURN, some 0, none⟩)] =
      ([(0, ⟨0, RPC_TYPE_RETURN, some 0, none⟩)],
       [REvent.reject 0 (.rpc ⟨.str "boom", .remote (.str "remote-stack")⟩)]) ∧
    mapGet (clientHandleMessage
        ⟨0, RPC_TYPE_ERROR, .obj [("message", .str "boom"), ("stack", .str "remote-stack")]⟩
        [(0, ⟨0, RPC_TYPE_RETURN, some 0, none⟩)]).1 0 =
      some ⟨0, RPC_TYPE_RETURN, some 0, none⟩ :=
  ⟨rfl, rfl⟩

/-! ## Branch-level reduction lemmas for the client inbound handler -/

theorem except_error_bind (e : JsError × PendingMap)
    (f : PendingMap × List REvent → Except (JsError × PendingMap) (PendingMap × List REvent)) :
    (Except.error e : Except (JsError × PendingMap) (PendingMap × List REvent)).bind f
      = .error e := rfl

theorem except_ok_bind (a : PendingMap × List REvent)
    (f : PendingMap × List REvent → Except (JsError × PendingMap) (PendingMap × List REvent)) :
    (Except.ok a : Except (JsError × PendingMap) (PendingMap × List REvent)).bind f = f a := rfl

theorem handleErrorBranch_not_error (msg : RpcMsg) (o : CALLBACK_ITEM)
    (st : PendingMap × List REvent) (h : (msg.type == RPC_TYPE_ERROR) = false) :
    handleErrorBranch msg o st = .ok st := by
  simp [handleErrorBranch, h]

theorem handleErrorBranch_no_promise (msg : RpcMsg) (o : CALLBACK_ITEM)
    (st : PendingMap × List REvent) (ht : (msg.type == RPC_TYPE_ERROR) = true)
    (hp : o.promise = none) :
    handleErrorBranch msg o st = .error (.typeError "reject is not a function", st.1) := by
  simp [handleErrorBranch, ht, hp]

theorem handleReturnBranch_not_return (msg : RpcMsg) (o : CALLBACK_ITEM)
    (st : PendingMap × List REvent) (h : (msg.type == RPC_TYPE_RETURN) = false) :
    handleReturnBranch msg o st = .ok st := by
  simp [handleReturnBranch, h]

theorem handleReturnBranch_no_promise (msg : RpcMsg) (o : CALLBACK_ITEM)
    (st : PendingMap × List REvent) (ht : (msg.type == RPC_TYPE_RETURN) = true)
    (hp : o.promise = none) :
    handleReturnBranch msg o st
      = .error (.typeError "resolve is not a function", mapDelete st.1 msg.id) := by
  simp [handleReturnBranch, ht, hp]

theorem handleCallbackBranch_no_callback (msg : RpcMsg) (o : CALLBACK_ITEM)
    (st : PendingMap × List REvent) (ht : (msg.type == RPC_TYPE_CALLBACK) = true)
    (hcb : o.callback = none) :
    ∃ e, handleCallbackBranch msg o st = .error (e, st.1) := by
  unfold handleCallbackBranch
  rw [ht]
  simp only [if_true]
  cases hdata : msg.data with
  | arr items =>
    cases hm : mapMThrow (fun e => jsGetE e "data") items with
    | ok args => exact ⟨.typeError "apply is not a function", by simp [hm, hcb]⟩
    | error e => exact ⟨e, by simp [hm]⟩
  | undefined => exact ⟨_, rfl⟩
  | jnull => exact ⟨_, rfl⟩
  | num n => exact ⟨_, rfl⟩
  | str s => exact ⟨_, rfl⟩
  | bool b => exact ⟨_, rfl⟩
  | obj fs => exact ⟨_, rfl⟩

theorem clientHandleInner_some (msg : RpcMsg) (m : PendingMap) (o : CALLBACK_ITEM)
    (hget : mapGet m msg.id = some o) :
    clientHandleInner msg m = (((handleErrorBranch msg o (m, [])).bind
      (handleReturnBranch msg o)).bind (handleCallbackBranch msg o)) := by
  unfold clientHandleInner
  rw [hget]

theorem clientHandleMessage_of_error (msg : RpcMsg) (m : PendingMap) (e : JsError)
    (mAt : PendingMap) (h : clientHandleInner msg m = .error (e, mAt)) :
    clientHandleMessage msg m = ([], rejectAllEvents mAt e) := by
  unfold clientHandleMessage
  rw [h]

/-! ## C9: a role-mismatched message fails all in-flight calls -/

/-- C9: if an inbound message's id is registered but its type does not match
the entry's role — CALLBACK for an entry without a `callback`, or
RETURN/ERROR for an entry without a `promise` — the handler body throws, the
catch branch rejects the promise of every entry still in the table, and the
whole table is cleared. -/
theorem clientHandle_role_mismatch_fails_all (m : PendingMap) (msg : RpcMsg)
    (o : CALLBACK_ITEM) (hget : mapGet m msg.id = some o)
    (hmis : (msg.type = RPC_TYPE_CALLBACK ∧ o.callback = none) ∨
      ((msg.type = RPC_TYPE_RETURN ∨ msg.type = RPC_TYPE_ERROR) ∧ o.promise = none)) :
    (clientHandleMessage msg m).1 = [] ∧
    ∀ k it, mapGet m k = some it → it.promise.isSome = true →
      ∃ err, REvent.reject k err ∈ (clientHandleMessage msg m).2 := by
  rcases hmis with ⟨htype, hcb⟩ | ⟨htype, hpr⟩
  · -- CALLBACK for an entry with no callback function
    have h1 : (msg.type == RPC_TYPE_ERROR) = false := by rw [htype]; decide
    have h2 : (msg.type == RPC_TYPE_RETURN) = false := by rw [htype]; decide
    have h3 : (msg.type == RPC_TYPE_CALLBACK) = true := by rw [htype]; decide
    obtain ⟨e, he⟩ := handleCallbackBranch_no_callback msg o (m, []) h3 hcb
    have hinner : clientHandleInner msg m = .error (e, m) := by
      rw [clientHandleInner_some msg m o hget,
        handleErrorBranch_not_error msg o (m, []) h1, except_ok_bind,
        handleReturnBranch_not_return msg o (m, []) h2, except_ok_bind, he]
    rw [clientHandleMessage_of_error msg m e m hinner]
    exact ⟨rfl, fun k it hk hp => ⟨e, mem_rejectAllEvents m e k it (mapGet_mem m k it hk) hp⟩⟩
  · rcases htype with htype | htype
    · -- RETURN for an entry with no promise: the entry is deleted first,
      -- then the resolve call throws
      have h1 : (msg.type == RPC_TYPE_ERROR) = false := by rw [htype]; decide
      have h2 : (msg.type == RPC_TYPE_RETURN) = true := by rw [htype]; decide
      have hinner : clientHandleInner msg m
          = .error (.typeError "resolve is not a function", mapDelete m msg.id) := by
        rw [clientHandleInner_some msg m o hget,
          handleErrorBranch_not_error msg o (m, []) h1, except_ok_bind,
          handleReturnBranch_no_promise msg o (m, []) h2 hpr, except_error_bind]
      rw [clientHandleMessage_of_error msg m _ _ hinner]
      refine ⟨rfl, fun k it hk hp => ?_⟩
      have hne : msg.id ≠ k := by
        intro hkk
        subst hkk
        rw [hget] at hk
        cases hk
        rw [hpr] at hp
        simp at hp
      have hk2 : mapGet (mapDelete m msg.id) k = some it := by
        rw [mapGet_mapDelete_ne m k msg.id hne]
        exact hk
      exact ⟨_, mem_rejectAllEvents _ _ k it (mapGet_mem _ k it hk2) hp⟩
    · -- ERROR for an entry with no promise: the reject call throws
      have h1 : (msg.type == RPC_TYPE_ERROR) = true := by rw [htype]; decide
      have hinner : clientHandleInner msg m
          = .error (.typeError "reject is not a function", m) := by
        rw [clientHandleInner_some msg m o hget,
          handleErrorBranch_no_promise msg o (m, []) h1 hpr, except_error_bind,
          except_error_bind]
      rw [clientHandleMessage_of_error msg m _ _ hinner]
      exact ⟨rfl, fun k it hk hp => ⟨_, mem_rejectAllEvents m _ k it (mapGet_mem m k it hk) hp⟩⟩

/-- C9 witness: a RETURN message whose id names a callback slot clears the
table and rejects the unrelated waiter registered under id 0. -/
theorem clientHandle_role_mismatch_fails_all_witness :
    (clientHandleMessage ⟨1, RPC_TYPE_RETURN, .str "x"⟩
      [(0, ⟨0, RPC_TYPE_RETURN, some 0, none⟩),
       (1, ⟨1, RPC_TYPE_CALLBACK, none, some 1⟩)]).1 = [] ∧
    ∃ err, REvent.reject 0 err ∈ (clientHandleMessage ⟨1, RPC_TYPE_RETURN, .str "x"⟩
      [(0, ⟨0, RPC_TYPE_RETURN, some 0, none⟩),
       (1, ⟨1, RPC_TYPE_CALLBACK, none, some 1⟩)]).2 := by
  have h := clientHandle_role_mismatch_fails_all
    [(0, ⟨0, RPC_TYPE_RETURN, some 0, none⟩), (1, ⟨1, RPC_TYPE_CALLBACK, none, some 1⟩)]
    ⟨1, RPC_TYPE_RETURN, .str "x"⟩ ⟨1, RPC_TYPE_CALLBACK, none, some 1⟩ rfl
    (Or.inr ⟨Or.inl rfl, rfl⟩)
  exact ⟨h.1, h.2 0 ⟨0, RPC_TYPE_RETURN, some 0, none⟩ rfl rfl⟩

/-! ## Lemmas about the argument-registration loop of `apiInvoke` -/

theorem regArgsLoop_ok (args : List JsArg) (h : ∀ a ∈ args, isSyncCallable a = false) :
    ∀ (st : ClientState) (keys : List Nat) (acc : List InvokeArgEntry),
      ∃ r, regArgsLoop args st keys acc = .ok r := by
  induction args with
  | nil => intro st keys acc; exact ⟨(st, keys, acc), rfl⟩
  | cons a rest ih =>
    intro st keys acc
    have hrest : ∀ x ∈ rest, isSyncCallable x = false :=
      fun x hx => h x (List.mem_cons_of_mem a hx)
    cases a with
    | value v =>
      obtain ⟨r, hr⟩ := ih hrest st keys (acc ++ [.plain v])
      exact ⟨r, by simpa [regArgsLoop] using hr⟩
    | func isAsync ctorName =>
      cases isAsync with
      | false =>
        have := h (.func false ctorName) (List.mem_cons_self _ _)
        simp [isSyncCallable] at this
      | true =>
        obtain ⟨r, hr⟩ := ih hrest
          ⟨st.uniqueKeyID + 1, mapSet st.callbackFunctionMap st.uniqueKeyID
            ⟨st.uniqueKeyID, RPC_TYPE_CALLBACK, none, some st.uniqueKeyID⟩⟩
          (keys ++ [st.uniqueKeyID]) (acc ++ [.thunk st.uniqueKeyID])
        exact ⟨r, by simpa [regArgsLoop] using hr⟩

theorem regArgsLoop_sync_error (args : List JsArg)
    (h : ∃ a ∈ args, isSyncCallable a = true) :
    ∀ (st : ClientState) (keys : List Nat) (acc : List InvokeArgEntry),
      ∃ receivedType stE keysE,
        regArgsLoop args st keys acc
          = .error (asyncCallbackErrorMessage receivedType, stE, keysE) := by
  induction args with
  | nil => simp at h
  | cons a rest ih =>
    intro st keys acc
    cases a with
    | value v =>
      have hrest : ∃ x ∈ rest, isSyncCallable x = true := by
        obtain ⟨x, hx, hs⟩ := h
        rcases List.mem_cons.mp hx with rfl | hx2
        · simp [isSyncCallable] at hs
        · exact ⟨x, hx2, hs⟩
      obtain ⟨rt, stE, keysE, hr⟩ := ih hrest st keys (acc ++ [.plain v])
      exact ⟨rt, stE, keysE, by simpa [regArgsLoop] using hr⟩
    | func isAsync ctorName =>
      cases isAsync with
      | true =>
        have hrest : ∃ x ∈ rest, isSyncCallable x = true := by
          obtain ⟨x, hx, hs⟩ := h
          rcases List.mem_cons.mp hx with rfl | hx2
          · simp [isSyncCallable] at hs
          · exact ⟨x, hx2, hs⟩
        obtain ⟨rt, stE, keysE, hr⟩ := ih hrest
          ⟨st.uniqueKeyID + 1, mapSet st.callbackFunctionMap st.uniqueKeyID
            ⟨st.uniqueKeyID, RPC_TYPE_CALLBACK, none, some st.uniqueKeyID⟩⟩
          (keys ++ [st.uniqueKeyID]) (acc ++ [.thunk st.uniqueKeyID])
        exact ⟨rt, stE, keysE, by simpa [regArgsLoop] using hr⟩
      | false =>
        exact ⟨if ctorName.isEmpty then "regular function" else ctorName, st, keys,
          by simp [regArgsLoop]⟩

theorem regArgsLoop_error_state (args : List JsArg) :
    ∀ (st : ClientState) (keys : List Nat) (acc : List InvokeArgEntry)
      (msg : String) (stE : ClientState) (keysE : List Nat),
      regArgsLoop args st keys acc = .error (msg, stE, keysE) →
      (∀ k ∈ keys, (mapGet st.callbackFunctionMap k).isSome = true ∧ k < st.uniqueKeyID) →
      st.uniqueKeyID ≤ stE.uniqueKeyID ∧
      (∀ j, j < st.uniqueKeyID →
        mapGet stE.callbackFunctionMap j = mapGet st.callbackFunctionMap j) ∧
      (∀ k ∈ keysE, (mapGet stE.callbackFunctionMap k).isSome = true) := by
  induction args with
  | nil =>
    intro st keys acc msg stE keysE h hk
    simp [regArgsLoop] at h
  | cons a rest ih =>
    intro st keys acc msg stE keysE h hk
    cases a with
    | value v =>
      exact ih st keys (acc ++ [.plain v]) msg stE keysE (by simpa [regArgsLoop] using h) hk
    | func isAsync ctorName =>
      cases isAsync with
      | true =>
        have h2 : regArgsLoop rest
            ⟨st.uniqueKeyID + 1, mapSet st.callbackFunctionMap st.uniqueKeyID
              ⟨st.uniqueKeyID, RPC_TYPE_CALLBACK, none, some st.uniqueKeyID⟩⟩
            (keys ++ [st.uniqueKeyID]) (acc ++ [.thunk st.uniqueKeyID])
            = .error (msg, stE, keysE) := by simpa [regArgsLoop] using h
        have hk2 : ∀ k ∈ keys ++ [st.uniqueKeyID],
            (mapGet (mapSet st.callbackFunctionMap st.uniqueKeyID
              ⟨st.uniqueKeyID, RPC_TYPE_CALLBACK, none, some st.uniqueKeyID⟩) k).isSome = true ∧
            k < st.uniqueKeyID + 1 := by
          intro k hkmem
          rcases List.mem_append.mp hkmem with hkk | hkk
          · obtain ⟨hs, hlt⟩ := hk k hkk
            refine ⟨?_, by omega⟩
            rw [mapGet_mapSet_ne _ _ _ _ (by omega)]
            exact hs
          · have hkeq : k = st.uniqueKeyID := by simpa using hkk
            subst hkeq
            refine ⟨?_, by omega⟩
            rw [mapGet_mapSet_self]
            rfl
        obtain ⟨hle, hpres, hkeys⟩ := ih _ _ _ msg stE keysE h2 hk2
        refine ⟨by simp only at hle; omega, fun j hj => ?_, hkeys⟩
        have hp := hpres j (by simp only; omega)
        rw [hp]
        exact mapGet_mapSet_ne _ _ _ _ (by omega)
      | false =>
        simp [regArgsLoop] at h
        obtain ⟨-, h2, h3⟩ := h
        subst h2
        subst h3
        exact ⟨le_refl _, fun j _ => rfl, fun k hkk => (hk k hkk).1⟩

/-! ## C6: callback slots are removed on every settled invocation -/

/-- C6: whenever the argument loop succeeds (no argument is a non-async
callable) — so the CALL message reaches the writer — every callback-slot key
allocated for this invocation's function arguments is deleted from the
pending-call table in the `finally` block, whatever way the invocation
settles: write failure, a RETURN resolution or a rejection. -/
theorem apiInvoke_callback_slots_removed (fnName : String) (args : List JsArg)
    (settle : Settlement) (st : ClientState)
    (hasync : ∀ a ∈ args, isSyncCallable a = false) :
    ∀ k ∈ (apiInvoke fnName args settle st).keys,
      mapGet (apiInvoke fnName args settle st).state.callbackFunctionMap k = none := by
  obtain ⟨⟨st2, keys, argArray⟩, hr⟩ := regArgsLoop_ok args hasync
    ⟨st.uniqueKeyID + 1, mapSet st.callbackFunctionMap st.uniqueKeyID
      ⟨st.uniqueKeyID, RPC_TYPE_RETURN, some st.uniqueKeyID, none⟩⟩
    [] [.plain (.str fnName)]
  simp only [apiInvoke]
  rw [hr]
  cases settle with
  | writeThrows e => exact fun k hk => mapGet_deleteKeys_mem keys _ k hk
  | resolveWith v => exact fun k hk => mapGet_deleteKeys_mem keys _ k hk
  | rejectWith e => exact fun k hk => mapGet_deleteKeys_mem keys _ k hk

/-- C6 witness: an invocation with one async callback argument allocates key 1
and, once settled, key 1 is no longer in the table. -/
theorem apiInvoke_callback_slots_removed_witness :
    mapGet (apiInvoke "f" [.func true "AsyncFunction", .value (.str "x")]
      (.resolveWith .undefined) ⟨0, []⟩).state.callbackFunctionMap 1 = none :=
  apiInvoke_callback_slots_removed "f" [.func true "AsyncFunction", .value (.str "x")]
    (.resolveWith .undefined) ⟨0, []⟩ (by decide) 1 (by decide)

/-! ## C7: a non-async callable fails the invocation before anything is sent -/

/-- C7: if some argument is a callable that is not async, `apiInvoke` throws
the descriptive only-async-callbacks error and no CALL message is ever handed
to the writer. -/
theorem apiInvoke_sync_callback_fails_before_send (fnName : String)
    (args : List JsArg) (settle : Settlement) (st : ClientState)
    (hsync : ∃ a ∈ args, isSyncCallable a = true) :
    (apiInvoke fnName args settle st).sent = [] ∧
    ∃ receivedType, (apiInvoke fnName args settle st).outcome
      = .usageError (asyncCallbackErrorMessage receivedType) := by
  obtain ⟨rt, stE, keysE, hr⟩ := regArgsLoop_sync_error args hsync
    ⟨st.uniqueKeyID + 1, mapSet st.callbackFunctionMap st.uniqueKeyID
      ⟨st.uniqueKeyID, RPC_TYPE_RETURN, some st.uniqueKeyID, none⟩⟩
    [] [.plain (.str fnName)]
  simp only [apiInvoke]
  rw [hr]
  exact ⟨rfl, rt, rfl⟩

/-- C7 witness: a single synchronous-function argument yields the usage error
and an empty sent list. -/
theorem apiInvoke_sync_callback_fails_before_send_witness :
    (apiInvoke "f" [.func false "Function"] (.resolveWith .undefined) ⟨0, []⟩).sent = [] ∧
    ∃ receivedType, (apiInvoke "f" [.func false "Function"] (.resolveWith .undefined)
      ⟨0, []⟩).outcome = .usageError (asyncCallbackErrorMessage receivedType) :=
  apiInvoke_sync_callback_fails_before_send "f" [.func false "Function"]
    (.resolveWith .undefined) ⟨0, []⟩ ⟨.func false "Function", List.mem_cons_self _ _, rfl⟩

/-! ## C10: the failed invocation leaves its entries registered -/

/-- C10: when `apiInvoke` throws on a non-async callable, the throw happens
before the `try` block: the freshly registered result waiter (with its
unsettled promise) and every callback slot registered for the function
arguments that preceded the offender stay in the pending-call table, nothing
is sent, and only the pipeline-wide `reject` later rejects the waiter and
clears the table. -/
theorem apiInvoke_sync_callback_leaves_entries (fnName : String)
    (pre post : List JsArg) (ctorName : String) (settle : Settlement)
    (st : ClientState) (hpre : ∀ a ∈ pre, isSyncCallable a = false) :
    (∃ s, (apiInvoke fnName (pre ++ .func false ctorName :: post) settle st).outcome
      = .usageError s) ∧
    mapGet (apiInvoke fnName (pre ++ .func false ctorName :: post) settle
        st).state.callbackFunctionMap st.uniqueKeyID
      = some ⟨st.uniqueKeyID, RPC_TYPE_RETURN, some st.uniqueKeyID, none⟩ ∧
    (∀ k ∈ (apiInvoke fnName (pre ++ .func false ctorName :: post) settle st).keys,
      (mapGet (apiInvoke fnName (pre ++ .func false ctorName :: post) settle
        st).state.callbackFunctionMap k).isSome = true) ∧
    (apiInvoke fnName (pre ++ .func false ctorName :: post) settle st).sent = [] ∧
    (∀ e, REvent.reject st.uniqueKeyID e ∈ (clientReject e (apiInvoke fnName
        (pre ++ .func false ctorName :: post) settle st).state.callbackFunctionMap).1 ∧
      (clientReject e (apiInvoke fnName (pre ++ .func false ctorName :: post) settle
        st).state.callbackFunctionMap).2 = []) := by
  have hsync : ∃ a ∈ pre ++ .func false ctorName :: post, isSyncCallable a = true :=
    ⟨.func false ctorName, List.mem_append.mpr (Or.inr (List.mem_cons_self _ _)), rfl⟩
  obtain ⟨rt, stE, keysE, hr⟩ := regArgsLoop_sync_error _ hsync
    ⟨st.uniqueKeyID + 1, mapSet st.callbackFunctionMap st.uniqueKeyID
      ⟨st.uniqueKeyID, RPC_TYPE_RETURN, some st.uniqueKeyID, none⟩⟩
    [] [.plain (.str fnName)]
  obtain ⟨hle, hpres, hkeys⟩ := regArgsLoop_error_state _ _ _ _ _ _ _ hr (by simp)
  have hwaiter : mapGet stE.callbackFunctionMap st.uniqueKeyID
      = some ⟨st.uniqueKeyID, RPC_TYPE_RETURN, some st.uniqueKeyID, none⟩ := by
    have hp := hpres st.uniqueKeyID (by simp)
    rw [hp]
    exact mapGet_mapSet_self _ _ _
  simp only [apiInvoke]
  rw [hr]
  refine ⟨⟨asyncCallbackErrorMessage rt, rfl⟩, hwaiter, hkeys, rfl, fun e => ⟨?_, rfl⟩⟩
  exact mem_rejectAllEvents _ e _ _ (mapGet_mem _ _ _ hwaiter) rfl

/-- C10 witness: with one async callback before the offending synchronous
callback, the waiter entry 0 remains in the table and nothing was sent. -/
theorem apiInvoke_sync_callback_leaves_entries_witness :
    mapGet (apiInvoke "f" [.func true "AsyncFunction", .func false "Function"]
      (.resolveWith .undefined) ⟨0, []⟩).state.callbackFunctionMap 0
      = some ⟨0, RPC_TYPE_RETURN, some 0, none⟩ ∧
    (apiInvoke "f" [.func true "AsyncFunction", .func false "Function"]
      (.resolveWith .undefined) ⟨0, []⟩).sent = [] := by
  have h := apiInvoke_sync_callback_leaves_entries "f" [.func true "AsyncFunction"] []
    "Function" (.resolveWith .undefined) ⟨0, []⟩ (by decide)
  exact ⟨h.2.1, h.2.2.2.1⟩

/-! ## C8: the reconnect backoff schedule -/

theorem timeWaitRetryWaits_succ (n : Nat) (longs : Nat → Bool) (w0 : Nat) :
    timeWaitRetryWaits (n + 1) longs w0
      = (if longs 0 then 300 else w0) ::
        timeWaitRetryWaits n (fun i => longs (i + 1))
          (if (if longs 0 then 300 else w0) * 2 > 60000 then 60000
           else (if longs 0 then 300 else w0) * 2) := rfl

theorem timeWaitRetryWaits_spec (n : Nat) : ∀ (longs : Nat → Bool) (w0 : Nat),
    300 ≤ w0 → w0 ≤ 60000 →
    (timeWaitRetryWaits n longs w0).length = n ∧
    (0 < n → (timeWaitRetryWaits n longs w0).getD 0 0 = if longs 0 then 300 else w0) ∧
    (∀ i, i < n → longs i = true → (timeWaitRetryWaits n longs w0).getD i 0 = 300) ∧
    (∀ w ∈ timeWaitRetryWaits n longs w0, 300 ≤ w ∧ w ≤ 60000) ∧
    (∀ i, i + 1 < n → longs (i + 1) = false →
      (timeWaitRetryWaits n longs w0).getD (i + 1) 0
        = min (2 * (timeWaitRetryWaits n longs w0).getD i 0) 60000) := by
  induction n with
  | zero =>
    intro longs w0 h1 h2
    exact ⟨rfl, by simp, by simp, by simp [timeWaitRetryWaits], by simp⟩
  | succ n ih =>
    intro longs w0 h1 h2
    have hs1a : 300 ≤ (if longs 0 then 300 else w0) := by split <;> omega
    have hs1b : (if longs 0 then 300 else w0) ≤ 60000 := by split <;> omega
    have hBa : 300 ≤ (if (if longs 0 then 300 else w0) * 2 > 60000 then 60000
        else (if longs 0 then 300 else w0) * 2) := by split_ifs <;> omega
    have hBb : (if (if longs 0 then 300 else w0) * 2 > 60000 then 60000
        else (if longs 0 then 300 else w0) * 2) ≤ 60000 := by split_ifs <;> omega
    obtain ⟨ihlen, ihhead, ihreset, ihbounds, ihconsec⟩ :=
      ih (fun i => longs (i + 1)) _ hBa hBb
    rw [timeWaitRetryWaits_succ]
    refine ⟨by simp only [List.length_cons, ihlen], fun _ => by simp [List.getD], ?_, ?_, ?_⟩
    · intro i hi hl
      cases i with
      | zero => simp [List.getD, hl]
      | succ j =>
        have := ihreset j (by omega) (by simpa using hl)
        simpa [List.getD] using this
    · intro w hw
      rcases List.mem_cons.mp hw with rfl | hw2
      · exact ⟨hs1a, hs1b⟩
      · exact ihbounds w hw2
    · intro i hi hl
      cases i with
      | zero =>
        have hn : 0 < n := by omega
        have hh := ihhead hn
        rw [hl] at hh
        simp only [Bool.false_eq_true, if_false] at hh
        simp only [List.getD_cons_succ, List.getD_cons_zero]
        rw [hh, Nat.min_def]
        split_ifs <;> omega
      | succ j =>
        have := ihconsec j (by omega) (by simpa using hl)
        simpa [List.getD] using this

/-- C8: in `timeWaitRetryLoop`, the wait before the first retry is 300 ms;
every wait stays between 300 and 60 000 ms; an iteration whose callback ran
for more than 10 s sleeps 300 ms (the reset); an iteration whose callback was
fast sleeps double the previous wait, capped at 60 000 ms; and the loop
performs exactly as many iterations as the signal allows before it is observed
aborted. -/
theorem timeWaitRetryLoop_backoff (n : Nat) (longs : Nat → Bool) :
    (timeWaitRetryLoop n longs).length = n ∧
    (0 < n → (timeWaitRetryLoop n longs).getD 0 0 = 300) ∧
    (∀ i, i < n → longs i = true → (timeWaitRetryLoop n longs).getD i 0 = 300) ∧
    (∀ w ∈ timeWaitRetryLoop n longs, 300 ≤ w ∧ w ≤ 60000) ∧
    (∀ i, i + 1 < n → longs (i + 1) = false →
      (timeWaitRetryLoop n longs).getD (i + 1) 0
        = min (2 * (timeWaitRetryLoop n longs).getD i 0) 60000) := by
  simp only [timeWaitRetryLoop]
  obtain ⟨hlen, hhead, hreset, hbounds, hconsec⟩ :=
    timeWaitRetryWaits_spec n longs 300 (by omega) (by omega)
  refine ⟨hlen, fun hn => ?_, hreset, hbounds, hconsec⟩
  rw [hhead hn]
  split <;> rfl

/-- C8 witness: four iterations with a long third callback produce the waits
300, 600, 300, 600 — doubling, reset on the long run, and resumed doubling. -/
theorem timeWaitRetryLoop_backoff_witness :
    timeWaitRetryLoop 4 (fun i => i == 2) = [300, 600, 300, 600] ∧
    (timeWaitRetryLoop 4 (fun i => i == 2)).getD 0 0 = 300 ∧
    (timeWaitRetryLoop 4 (fun i => i == 2)).getD 2 0 = 300 ∧
    (timeWaitRetryLoop 4 (fun i => i == 2)).getD 3 0
      = min (2 * (timeWaitRetryLoop 4 (fun i => i == 2)).getD 2 0) 60000 :=
  ⟨rfl,
   (timeWaitRetryLoop_backoff 4 (fun i => i == 2)).2.1 (by omega),
   (timeWaitRetryLoop_backoff 4 (fun i => i == 2)).2.2.1 2 (by omega) rfl,
   (timeWaitRetryLoop_backoff 4 (fun i => i == 2)).2.2.2.2 2 (by omega) rfl⟩

/-! ## C3: message-codec round trip -/

theorem isArgItem_shape (e : JVal) (h : isArgItem e = true) :
    ∃ t d, e = .obj [("type", t), ("data", d)] := by
  unfold isArgItem at h
  split at h
  · rename_i t d
    exact ⟨t, d, rfl⟩
  · simp at h

theorem mapMThrow_cons {m : Type → Type} [Monad m] (f : JVal → m JVal)
    (x : JVal) (xs : List JVal) :
    mapMThrow f (x :: xs)
      = f x >>= fun y => mapMThrow f xs >>= fun ys => pure (y :: ys) := rfl

theorem argItemToPair_obj (t d : JVal) :
    argItemToPair (JVal.obj [("type", t), ("data", d)]) = some (JVal.arr [t, d]) := rfl

theorem pairToArgItem_arr (t d : JVal) :
    pairToArgItem (JVal.arr [t, d]) = some (JVal.obj [("type", t), ("data", d)]) := rfl

theorem argItems_mapM_roundtrip (items : List JVal)
    (h : ∀ e ∈ items, isArgItem e = true) :
    ∃ pairs : List JVal,
      mapMThrow argItemToPair items = some pairs ∧
      mapMThrow pairToArgItem pairs = some items := by
  induction items with
  | nil => exact ⟨[], rfl, rfl⟩
  | cons e rest ih =>
    obtain ⟨t, d, rfl⟩ := isArgItem_shape e (h e (List.mem_cons_self _ _))
    obtain ⟨pairs, h1, h2⟩ := ih (fun x hx => h x (List.mem_cons_of_mem _ hx))
    refine ⟨JVal.arr [t, d] :: pairs, ?_, ?_⟩
    · rw [mapMThrow_cons, argItemToPair_obj]
      simp [h1]
    · rw [mapMThrow_cons, pairToArgItem_arr]
      simp [h2]

theorem eqNum_num (v : JVal) (n : Nat) (h : JVal.eqNum v n = true) : v = .num n := by
  cases v with
  | num m =>
    simp [JVal.eqNum] at h
    subst h
    rfl
  | undefined => simp [JVal.eqNum] at h
  | jnull => simp [JVal.eqNum] at h
  | str s => simp [JVal.eqNum] at h
  | bool b => simp [JVal.eqNum] at h
  | arr l => simp [JVal.eqNum] at h
  | obj fs => simp [JVal.eqNum] at h

/-- C3: for a message whose `type` is one of CALL, RETURN, CALLBACK, ERROR —
with CALL/CALLBACK data an ordered list of well-formed `{type, data}` argument
items — decoding the encoding gives back the message: `buildRpcData` maps
argument items to `[tag, payload]` pairs and packs `[id, type, data]`, and
`parseRpcData` remaps each pair back to `{type, data}`. -/
theorem parseRpcData_buildRpcData_roundtrip (box : RPC_DATA)
    (htype : box.type = .num RPC_TYPE_CALL ∨ box.type = .num RPC_TYPE_RETURN ∨
      box.type = .num RPC_TYPE_CALLBACK ∨ box.type = .num RPC_TYPE_ERROR)
    (hargs : (box.type = .num RPC_TYPE_CALL ∨ box.type = .num RPC_TYPE_CALLBACK) →
      ∃ items, box.data = .arr items ∧ ∀ e ∈ items, isArgItem e = true) :
    (buildRpcData box).bind parseRpcData = some box := by
  obtain ⟨bid, btype, bdata⟩ := box
  simp only at htype hargs ⊢
  by_cases hcb : (JVal.eqNum btype RPC_TYPE_CALL || JVal.eqNum btype RPC_TYPE_CALLBACK) = true
  · have hor : btype = .num RPC_TYPE_CALL ∨ btype = .num RPC_TYPE_CALLBACK := by
      rcases Bool.or_eq_true_iff.mp hcb with h | h
      · exact Or.inl (eqNum_num _ _ h)
      · exact Or.inr (eqNum_num _ _ h)
    obtain ⟨items, hdata, hall⟩ := hargs hor
    subst hdata
    obtain ⟨pairs, h1, h2⟩ := argItems_mapM_roundtrip items hall
    simp only [buildRpcData, mapArgItemsToPairs, hcb, if_true, h1]
    simp [parseRpcData, mapPairsToArgItems, List.getD, hcb, h2]
    intro hA hB
    rw [hA, hB] at hcb
    simp at hcb
  · have hcb2 : (JVal.eqNum btype RPC_TYPE_CALL || JVal.eqNum btype RPC_TYPE_CALLBACK) = false := by
      simpa using hcb
    simp only [buildRpcData, hcb2, Bool.false_eq_true, if_false]
    simp [parseRpcData, List.getD, hcb2]
    intro hor2
    rcases hor2 with h | h <;> rw [h] at hcb2 <;> simp at hcb2

/-- C3 witness: a CALL message with one OTHERS argument item round-trips. -/
theorem parseRpcData_buildRpcData_roundtrip_witness :
    (buildRpcData ⟨.num 1, .num RPC_TYPE_CALL,
      .arr [.obj [("type", .num RPC_DATA_ARG_TYPE_OTHERS), ("data", .str "hello")]]⟩).bind
      parseRpcData
      = some ⟨.num 1, .num RPC_TYPE_CALL,
        .arr [.obj [("type", .num RPC_DATA_ARG_TYPE_OTHERS), ("data", .str "hello")]]⟩ :=
  parseRpcData_buildRpcData_roundtrip
    ⟨.num 1, .num RPC_TYPE_CALL,
      .arr [.obj [("type", .num RPC_DATA_ARG_TYPE_OTHERS), ("data", .str "hello")]]⟩
    (Or.inl rfl)
    (fun _ => ⟨[.obj [("type", .num RPC_DATA_ARG_TYPE_OTHERS), ("data", .str "hello")]],
      rfl, by simp [isArgItem]⟩)

/-! ## C5: cipher-state derivation -/

/-- C5 counterexample: for pre-key "k", the iv that `encrypt` passes to
`crypto.subtle.encrypt` is the full 256-bit (32-byte) `deriveBits` output —
`buildKeyIv` returns `new Uint8Array(iv)` whole and `encrypt` forwards it
untruncated — not its first 12 bytes as the claim states. -/
theorem buildKeyIv_iv_not_truncated :
    (encrypt [1] (buildKeyIv "k" 10).1 (buildKeyIv "k" 10).2).ivUsed
      = some (.pbkdf2 "k" (.sha512 "k") 10 "SHA-256" 256) ∧
    DerivedBits.byteLength (.pbkdf2 "k" (.sha512 "k") 10 "SHA-256" 256) = 32 ∧
    DerivedBits.byteLength (.pbkdf2 "k" (.sha512 "k") 10 "SHA-256" 256) ≠ 12 :=
  ⟨rfl, rfl, by decide⟩

/-- C5 (amended): an empty pre-key yields no cipher state and
`encrypt`/`decrypt` pass data through; a non-empty pre-key derives, with salt
`SHA-512(pre-key)` and PBKDF2 at 10 iterations over SHA-256, a 256-bit
AES-GCM key and a 256-bit buffer — and that whole 32-byte buffer (not its
first 12 bytes) is the fixed AES-GCM iv passed for every record's encryption
and decryption. -/
theorem buildKeyIv_derivation (password : String) (data : Bytes)
    (hp : password.isEmpty = false) :
    buildKeyIv "" 10 = (none, none) ∧
    encrypt data none none = .plain data ∧
    decrypt data none none = .plain data ∧
    buildKeyIv password 10
      = (some ⟨password, .sha512 password, 10, "SHA-256", "AES-GCM", 256⟩,
         some (.pbkdf2 password (.sha512 password) 10 "SHA-256" 256)) ∧
    (DerivedBits.pbkdf2 password (.sha512 password) 10 "SHA-256" 256).byteLength = 32 ∧
    encrypt data (buildKeyIv password 10).1 (buildKeyIv password 10).2
      = .aesGcmSealed ⟨password, .sha512 password, 10, "SHA-256", "AES-GCM", 256⟩
          (.pbkdf2 password (.sha512 password) 10 "SHA-256" 256) data ∧
    decrypt data (buildKeyIv password 10).1 (buildKeyIv password 10).2
      = .aesGcmOpened ⟨password, .sha512 password, 10, "SHA-256", "AES-GCM", 256⟩
          (.pbkdf2 password (.sha512 password) 10 "SHA-256" 256) data := by
  refine ⟨rfl, rfl, rfl, ?_, rfl, ?_, ?_⟩ <;> simp [buildKeyIv, encrypt, decrypt, hp]

/-- C5 witness: the amended derivation at pre-key "k" and record [1]. -/
theorem buildKeyIv_derivation_witness :
    buildKeyIv "" 10 = (none, none) ∧
    encrypt [1] (buildKeyIv "k" 10).1 (buildKeyIv "k" 10).2
      = .aesGcmSealed ⟨"k", .sha512 "k", 10, "SHA-256", "AES-GCM", 256⟩
          (.pbkdf2 "k" (.sha512 "k") 10 "SHA-256" 256) [1] := by
  have h := buildKeyIv_derivation "k" [1] rfl
  exact ⟨h.1, h.2.2.2.2.2.1⟩

/-! ## C4: order of the length and magic checks in the frame decoder -/

/-- C4 counterexample: an 8-byte carry whose header claims `len = 100` with a
zero magic word.  The decoder keeps the whole carry as the remainder (waiting
for bytes that will never come) instead of discarding it, even though the
magic is wrong — the length-availability check runs first. -/
theorem parseBufferData_bad_magic_kept :
    parseBufferData [100, 0, 0, 0, 0, 0, 0, 0] = ([], [100, 0, 0, 0, 0, 0, 0, 0]) ∧
    8 ≤ ([100, 0, 0, 0, 0, 0, 0, 0] : Bytes).length ∧
    readUInt32LE [100, 0, 0, 0, 0, 0, 0, 0] 4 ≠ HEADER_CHECK ∧
    ([100, 0, 0, 0, 0, 0, 0, 0] : Bytes) ≠ [] := by
  refine ⟨rfl, by decide, by decide, by decide⟩

/-- C4 (amended): once the carry holds the 8 header bytes, the decoder reads
`len` and `magic` but checks availability first: if the carry holds fewer
than `8 + len` bytes it stops and keeps the carry, regardless of the magic —
so a corrupted header whose bogus `len` claims more bytes than will ever
arrive is not detected.  Only when `8 + len` bytes are present is the magic
compared, and then a mismatch discards the carry. -/
theorem parseBufferData_check_order (buffer : Bytes) (h8 : 8 ≤ buffer.length) :
    (buffer.length < 8 + readUInt32LE buffer 0 → parseBufferData buffer = ([], buffer)) ∧
    (8 + readUInt32LE buffer 0 ≤ buffer.length → readUInt32LE buffer 4 ≠ HEADER_CHECK →
      parseBufferData buffer = ([], [])) := by
  constructor
  · intro hlen
    simp only [parseBufferData, parseBufferGo]
    rw [if_neg (by omega), if_neg (by omega), if_pos hlen]
  · intro hlen hmagic
    simp only [parseBufferData, parseBufferGo]
    rw [if_neg (by omega), if_neg (by omega), if_neg (by omega), if_pos hmagic]

/-- C4 witness: an 8-byte carry with `len = 0` and a wrong magic is discarded
(the magic check is reached because `8 + 0` bytes are available). -/
theorem parseBufferData_check_order_witness :
    parseBufferData [0, 0, 0, 0, 9, 9, 9, 9] = ([], []) :=
  (parseBufferData_check_order [0, 0, 0, 0, 9, 9, 9, 9] (by decide)).2
    (by decide) (by decide)

/-! ## C2: streaming frame decoding is re-fragmentation invariant -/

theorem getD_take_of_lt (l : Bytes) (k i : Nat) (h : i < k) :
    (l.take k).getD i 0 = l.getD i 0 := by
  simp [List.getD, List.getElem?_take, h]

theorem readUInt32LE_take (l : Bytes) (k off : Nat) (h : off + 4 ≤ k) :
    readUInt32LE (l.take k) off = readUInt32LE l off := by
  unfold readUInt32LE
  rw [getD_take_of_lt l k off (by omega), getD_take_of_lt l k (off + 1) (by omega),
    getD_take_of_lt l k (off + 2) (by omega), getD_take_of_lt l k (off + 3) (by omega)]

theorem readUInt32LE_write_head (v : Nat) (rest : Bytes) :
    readUInt32LE (writeUInt32LE v ++ rest) 0 = v % 4294967296 := by
  simp [readUInt32LE, writeUInt32LE, List.getD]
  omega

theorem readUInt32LE_write_second (v w : Nat) (rest : Bytes) :
    readUInt32LE (writeUInt32LE v ++ (writeUInt32LE w ++ rest)) 4 = w % 4294967296 := by
  simp [readUInt32LE, writeUInt32LE, List.getD]
  omega

theorem writeUInt32LE_length (v : Nat) : (writeUInt32LE v).length = 4 := rfl

theorem frameRecord_length (r : Bytes) : (frameRecord r).length = 8 + r.length := by
  simp [frameRecord, writeUInt32LE_length]
  omega

theorem readUInt32LE_frame_zero (r : Bytes) (rest : Bytes) (hr : r.length < 4294967296) :
    readUInt32LE (frameRecord r ++ rest) 0 = r.length := by
  have h := readUInt32LE_write_head r.length (writeUInt32LE HEADER_CHECK ++ (r ++ rest))
  rw [Nat.mod_eq_of_lt hr] at h
  simpa [frameRecord] using h

theorem readUInt32LE_frame_four (r : Bytes) (rest : Bytes) :
    readUInt32LE (frameRecord r ++ rest) 4 = HEADER_CHECK := by
  have h := readUInt32LE_write_second r.length HEADER_CHECK (r ++ rest)
  rw [Nat.mod_eq_of_lt (by decide : HEADER_CHECK < 4294967296)] at h
  simpa [frameRecord] using h

theorem buildBufferData_nil : buildBufferData [] = [] := rfl

theorem buildBufferData_cons (r : Bytes) (rs : List Bytes) :
    buildBufferData (r :: rs) = frameRecord r ++ buildBufferData rs := by
  simp [buildBufferData]

theorem buildBufferData_eq_nil (rs : List Bytes) (h : buildBufferData rs = []) :
    rs = [] := by
  cases rs with
  | nil => rfl
  | cons r rest =>
    rw [buildBufferData_cons] at h
    have := congrArg List.length h
    simp [frameRecord_length] at this

theorem take_append_of_le (l1 l2 : Bytes) (n : Nat) (h : n ≤ l1.length) :
    (l1 ++ l2).take n = l1.take n := by
  rw [List.take_append_eq_append_take]
  simp [Nat.sub_eq_zero_of_le h]

theorem drop_append_of_le (l1 l2 : Bytes) (n : Nat) (h : n ≤ l1.length) :
    (l1 ++ l2).drop n = l1.drop n ++ l2 := by
  rw [List.drop_append_eq_append_drop]
  simp [Nat.sub_eq_zero_of_le h]

theorem take_append_of_ge (l1 l2 : Bytes) (n : Nat) (h : l1.length ≤ n) :
    (l1 ++ l2).take n = l1 ++ l2.take (n - l1.length) := by
  rw [List.take_append_eq_append_take, List.take_of_length_le h]

theorem drop_append_of_ge (l1 l2 : Bytes) (n : Nat) (h : l1.length ≤ n) :
    (l1 ++ l2).drop n = l2.drop (n - l1.length) := by
  rw [List.drop_append_eq_append_drop]
  simp [List.drop_eq_nil_of_le h]

theorem parseBufferGo_frame (fuel : Nat) (r rest : Bytes) (hr : r.length < 4294967296) :
    parseBufferGo (fuel + 1) (frameRecord r ++ rest)
      = ((parseBufferGo fuel rest).1.cons r, (parseBufferGo fuel rest).2) := by
  have hlen : (frameRecord r ++ rest).length = 8 + r.length + rest.length := by
    simp [frameRecord_length]
  have hread0 : readUInt32LE (frameRecord r ++ rest) 0 = r.length :=
    readUInt32LE_frame_zero r rest hr
  have hread4 : readUInt32LE (frameRecord r ++ rest) 4 = HEADER_CHECK :=
    readUInt32LE_frame_four r rest
  have hw8 : (writeUInt32LE r.length ++ writeUInt32LE HEADER_CHECK).length = 8 := rfl
  have hassoc : frameRecord r ++ rest
      = (writeUInt32LE r.length ++ writeUInt32LE HEADER_CHECK) ++ (r ++ rest) := by
    simp [frameRecord]
  have hdrop8 : (frameRecord r ++ rest).drop 8 = r ++ rest := by
    rw [hassoc, ← hw8, List.drop_left]
  have hdata : ((frameRecord r ++ rest).drop 8).take r.length = r := by
    rw [hdrop8]
    exact List.take_left r rest
  have hdroplen : (frameRecord r ++ rest).drop (8 + r.length) = rest := by
    have : 8 + r.length = (frameRecord r).length := (frameRecord_length r).symm
    rw [this, List.drop_left]
  simp only [parseBufferGo, hread0, hread4, hdata, hdroplen, hlen]
  rw [if_neg (by omega), if_neg (by omega), if_neg (by omega),
    if_neg (by simp [HEADER_CHECK])]

theorem parseBufferGo_partial (fuel : Nat) (r : Bytes) (k : Nat)
    (hr : r.length < 4294967296) (hk : k < 8 + r.length) :
    parseBufferGo (fuel + 1) ((frameRecord r).take k) = ([], (frameRecord r).take k) := by
  have hlen : ((frameRecord r).take k).length = k := by
    simp [frameRecord_length]
    omega
  by_cases hk0 : k = 0
  · subst hk0
    simp [parseBufferGo]
  · by_cases hk8 : k < 8
    · simp only [parseBufferGo, hlen]
      rw [if_neg hk0, if_pos hk8]
    · have hread0 : readUInt32LE ((frameRecord r).take k) 0 = r.length := by
        rw [readUInt32LE_take _ _ _ (by omega)]
        have := readUInt32LE_frame_zero r [] hr
        simpa using this
      simp only [parseBufferGo, hlen, hread0]
      rw [if_neg hk0, if_neg (by omega), if_pos (by omega)]

theorem parseBufferGo_take_encode (rs : List Bytes) :
    (∀ r ∈ rs, r.length < 4294967296) →
    ∀ (n fuel : Nat), ((buildBufferData rs).take n).length < fuel →
    ∃ rs1 rs3 p, rs = rs1 ++ rs3 ∧
      (buildBufferData rs).take n = buildBufferData rs1 ++ p ∧
      parseBufferGo fuel ((buildBufferData rs).take n) = (rs1, p) ∧
      p ++ (buildBufferData rs).drop n = buildBufferData rs3 ∧
      (p = [] ∨ ∃ r2 k2 rs4, rs3 = r2 :: rs4 ∧ k2 < 8 + r2.length ∧
        p = (frameRecord r2).take k2) := by
  induction rs with
  | nil =>
    intro h n fuel hfuel
    refine ⟨[], [], [], rfl, ?_, ?_, ?_, Or.inl rfl⟩
    · simp [buildBufferData_nil]
    · cases fuel with
      | zero => simp [buildBufferData_nil] at hfuel
      | succ f => simp [buildBufferData_nil, parseBufferGo]
    · simp [buildBufferData_nil]
  | cons r rsr ih =>
    intro h n fuel hfuel
    have hr : r.length < 4294967296 := h r (List.mem_cons_self _ _)
    have hrest : ∀ x ∈ rsr, x.length < 4294967296 :=
      fun x hx => h x (List.mem_cons_of_mem _ hx)
    have hfl : (frameRecord r).length = 8 + r.length := frameRecord_length r
    by_cases hn : n < 8 + r.length
    · have htake : (buildBufferData (r :: rsr)).take n = (frameRecord r).take n := by
        rw [buildBufferData_cons]
        exact take_append_of_le _ _ _ (by omega)
      cases fuel with
      | zero => exact absurd hfuel (by omega)
      | succ f =>
        refine ⟨[], r :: rsr, (frameRecord r).take n, rfl, ?_, ?_, ?_,
          Or.inr ⟨r, n, rsr, rfl, hn, rfl⟩⟩
        · rw [htake]
          simp [buildBufferData_nil]
        · rw [htake]
          exact parseBufferGo_partial f r n hr hn
        · rw [buildBufferData_cons, drop_append_of_le _ _ _ (by omega),
            ← List.append_assoc, List.take_append_drop]
    · push_neg at hn
      have htake : (buildBufferData (r :: rsr)).take n
          = frameRecord r ++ (buildBufferData rsr).take (n - (8 + r.length)) := by
        rw [buildBufferData_cons, take_append_of_ge _ _ _ (by omega), hfl]
      cases fuel with
      | zero => exact absurd hfuel (by omega)
      | succ f =>
        have hfuel2 : ((buildBufferData rsr).take (n - (8 + r.length))).length < f := by
          rw [htake] at hfuel
          rw [List.length_append, hfl] at hfuel
          omega
        obtain ⟨rs1, rs3, p, heq, htake2, hparse, hdrop, hdisj⟩ :=
          ih hrest (n - (8 + r.length)) f hfuel2
        refine ⟨r :: rs1, rs3, p, by rw [heq, List.cons_append], ?_, ?_, ?_, hdisj⟩
        · rw [htake, htake2, buildBufferData_cons, List.append_assoc]
        · rw [htake, parseBufferGo_frame f _ _ hr, hparse]
        · rw [buildBufferData_cons, drop_append_of_ge _ _ _ (by omega), hfl, hdrop]

theorem foldl_decodeStep_eq (chunks : List Bytes) :
    ∀ (out : List Bytes) (carry : Bytes) (rs3 : List Bytes),
      (∀ r ∈ rs3, r.length < 4294967296) →
      carry ++ chunks.flatten = buildBufferData rs3 →
      (carry = [] ∨ ∃ r2 k2 rs4, rs3 = r2 :: rs4 ∧ k2 < 8 + r2.length ∧
        carry = (frameRecord r2).take k2) →
      List.foldl decodeStep (out, carry) chunks = (out ++ rs3, []) := by
  induction chunks with
  | nil =>
    intro out carry rs3 h hflat hpart
    simp only [List.flatten_nil, List.append_nil] at hflat
    rcases hpart with rfl | ⟨r2, k2, rs4, rfl, hk2, rfl⟩
    · have : rs3 = [] := buildBufferData_eq_nil rs3 hflat.symm
      subst this
      simp
    · exfalso
      have hlen := congrArg List.length hflat
      rw [buildBufferData_cons] at hlen
      simp [frameRecord_length] at hlen
      omega
  | cons c cs ih =>
    intro out carry rs3 h hflat hpart
    have hflat2 : (carry ++ c) ++ cs.flatten = buildBufferData rs3 := by
      rw [List.append_assoc]
      simpa using hflat
    have hbtake : (buildBufferData rs3).take (carry ++ c).length = carry ++ c := by
      rw [← hflat2]
      exact List.take_left _ _
    have hbdrop : (buildBufferData rs3).drop (carry ++ c).length = cs.flatten := by
      rw [← hflat2]
      exact List.drop_left _ _
    have hfuel : ((buildBufferData rs3).take (carry ++ c).length).length
        < (carry ++ c).length + 1 := by
      rw [hbtake]
      omega
    obtain ⟨rs1, rs3', p, heq, htake, hparse, hdrop, hdisj⟩ :=
      parseBufferGo_take_encode rs3 h (carry ++ c).length ((carry ++ c).length + 1) hfuel
    rw [hbtake] at hparse
    rw [hbdrop] at hdrop
    have hparse2 : parseBufferData (carry ++ c) = (rs1, p) := by
      unfold parseBufferData
      exact hparse
    have hds : decodeStep (out, carry) c = (out ++ rs1, p) := by
      unfold decodeStep
      rw [hparse2]
    have h3 : ∀ x ∈ rs3', x.length < 4294967296 := by
      intro x hx
      refine h x ?_
      rw [heq]
      exact List.mem_append.mpr (Or.inr hx)
    have happly := ih (out ++ rs1) p rs3' h3 hdrop hdisj
    calc List.foldl decodeStep (out, carry) (c :: cs)
        = List.foldl decodeStep (decodeStep (out, carry) c) cs := rfl
      _ = List.foldl decodeStep (out ++ rs1, p) cs := by rw [hds]
      _ = ((out ++ rs1) ++ rs3', []) := happly
      _ = (out ++ rs3, []) := by rw [List.append_assoc, ← heq]

/-- C2: for every sequence of payload records (each shorter than 2^32 bytes)
and every re-fragmentation of the concatenated frame encoding into chunks,
running the streaming decoder of `createDecodeStream` — `parseBufferData`
with a carry buffer — over the chunks emits exactly the original records, in
order, with nothing dropped, duplicated or reordered, and an empty final
carry. -/
theorem decodeStream_refragmentation (rs chunks : List Bytes)
    (hlen : ∀ r ∈ rs, r.length < 4294967296)
    (hchunks : chunks.flatten = buildBufferData rs) :
    decodeStream chunks = (rs, []) := by
  have h := foldl_decodeStep_eq chunks [] [] rs hlen (by simpa using hchunks) (Or.inl rfl)
  simpa [decodeStream] using h

/-- C2 witness: the two records [1,2,3] and [7], with their 20-byte encoding
split into chunks of 2, 4, 4 and 10 bytes that cut across both headers and
payloads, decode back to exactly the two records with an empty carry. -/
theorem decodeStream_refragmentation_witness :
    decodeStream [[3, 0], [0, 0, 95, 112], [247, 177, 1, 2],
      [3, 1, 0, 0, 0, 95, 112, 247, 177, 7]] = ([[1, 2, 3], [7]], []) :=
  decodeStream_refragmentation [[1, 2, 3], [7]]
    [[3, 0], [0, 0, 95, 112], [247, 177, 1, 2], [3, 1, 0, 0, 0, 95, 112, 247, 177, 7]]
    (by decide) (by decide)

end JsRpc
